import Mathlib

/-
Shallow embedding of `src/context.py` (makarono/circleci-context-manager).

The repository is a single Python script that reconciles a YAML-described
desired state of CircleCI contexts and environment variables against the
remote CircleCI v2 API.  The embedding below translates, function by
function, the pieces of the script that the verified claims are about:

* `load_config_yaml` (structural validation of the YAML document),
* `CircleCIClient.list_contexts` (paginated group listing),
* `CircleCIClient.list_environment_variables` (paginated variable listing),
* the reconciliation loop of `main` (context creation, variable
  classification and upsert, dry-run branches).

Remote behaviour is abstracted as oracle functions: a paginated listing
endpoint is a function from an optional continuation token to a page
result, and the mutating client operations are a record of functions
giving each call result.  The transport layer (`_request`) catches all
request exceptions and signals failure by returning `None`; this is
modelled by the `reqErr` constructor of the page-result types and by the
`Option` results of the client operations.  Network interactions and log
lines emitted by `main` are recorded as an event trace (`Ev`).
-/

namespace ContextSync

/-- Model of a parsed YAML value, as produced by `yaml.safe_load`. -/
inductive Yaml where
  | str (s : String)
  | int (n : Int)
  | bool (b : Bool)
  | null
  | list (xs : List Yaml)
  | map (kvs : List (String × Yaml))

mutual

/-- Python `str()` coercion applied by `create_or_update_environment_variable`
(line 297: a non-string value is stringified before transmission).  Atoms are
rendered exactly as Python renders them; container rendering is a close
textual approximation (quoting of nested strings is not reproduced). -/
def pyStr : Yaml → String
  | .str s => s
  | .int n => toString n
  | .bool b => if b then "True" else "False"
  | .null => "None"
  | .list xs => "[" ++ pyStrList xs ++ "]"
  | .map kvs => "\x7b" ++ pyStrMap kvs ++ "\x7d"

/-- Comma-separated rendering of a YAML sequence body. -/
def pyStrList : List Yaml → String
  | [] => ""
  | [x] => pyStr x
  | x :: y :: xs => pyStr x ++ ", " ++ pyStrList (y :: xs)

/-- Comma-separated rendering of a YAML mapping body. -/
def pyStrMap : List (String × Yaml) → String
  | [] => ""
  | [(k, v)] => k ++ ": " ++ pyStr v
  | (k, v) :: y :: xs => k ++ ": " ++ pyStr v ++ ", " ++ pyStrMap (y :: xs)

end

/-- Python `dict` insertion `d[k] = v`: overwrite in place if the key is
present, otherwise append (insertion order is preserved). -/
def dictInsert (d : List (String × String)) (k v : String) : List (String × String) :=
  if d.any (fun p => p.1 == k) then
    d.map (fun p => if p.1 == k then (k, v) else p)
  else d ++ [(k, v)]

/-- Python `dict.get k`: the value stored at `k`, if any. -/
def dictGet (d : List (String × String)) (k : String) : Option String :=
  (d.find? (fun p => p.1 == k)).map (fun p => p.2)

/-- The combination of `existing_contexts.get(context_name)` with the
truthiness test `if context_id:` at line 384: a stored empty string counts
as absent. -/
def truthyGet (d : List (String × String)) (k : String) : Option String :=
  match dictGet d k with
  | some v => if v == "" then none else some v
  | none => none

/-- Python `set.add`: membership-based insertion (the script only ever
tests membership of the resulting set). -/
def insertNoDup (l : List String) (x : String) : List String :=
  if l.contains x then l else l ++ [x]

/-! ### Paginated listing endpoints (`list_contexts`, lines 163-199, and
`list_environment_variables`, lines 239-278)

A page of the group-listing endpoint carries `items` (each with `name` and
`id` fields) and an optional `next_page_token`.  The continuation token is
opaque to the client, so its type is a parameter. -/

/-- One parsed page of the `GET /context?owner-id=...` response. -/
structure Page (τ : Type) where
  items : List (String × String)
  next_page_token : Option τ
deriving DecidableEq

/-- Outcome of one `_request` round trip for the group listing: a parsed
page, a transport failure (`_request` returned `None`), or a JSON/field
parse failure (`ValueError`/`KeyError` at lines 191-193). -/
inductive PageResult (τ : Type) where
  | ok (p : Page τ)
  | reqErr
  | parseErr
deriving DecidableEq

/-- Result of a terminating `list_contexts` run.  `ret` is the Python
return value: `some d` models returning the dictionary `d`; `none` would
model the function returning Python `None` (no return statement of
`list_contexts` does so, which is exactly what claim C10 is about).
`reqs` records the token attached to each HTTP request issued, in order
(`none` for the initial request without a `page-token` parameter). -/
structure ListCtxOut (τ : Type) where
  ret : Option (List (String × String))
  reqs : List (Option τ)
deriving DecidableEq

/-- The `while True` loop of `list_contexts`.  `fuel` bounds the number of
iterations (the Python loop has no bound; a server that always returns a
token loops forever, which the model reports as `none`). -/
def listCtxLoop {τ : Type} (S : Option τ → PageResult τ) :
    Nat → Option τ → List (String × String) → List (Option τ) → Option (ListCtxOut τ)
  | 0, _, _, _ => none
  | fuel + 1, tok, acc, reqs =>
    match S tok with
    | .reqErr => some ⟨some [], reqs ++ [tok]⟩
    | .parseErr => some ⟨some [], reqs ++ [tok]⟩
    | .ok p =>
      let acc2 := p.items.foldl (fun d kv => dictInsert d kv.1 kv.2) acc
      match p.next_page_token with
      | none => some ⟨some acc2, reqs ++ [tok]⟩
      | some t => listCtxLoop S fuel (some t) acc2 (reqs ++ [tok])

/-- `CircleCIClient.list_contexts` (lines 163-199). -/
def list_contexts {τ : Type} (S : Option τ → PageResult τ) (fuel : Nat) :
    Option (ListCtxOut τ) :=
  listCtxLoop S fuel none [] []

/-- One parsed page of `GET /context/{id}/environment-variable`: the
`variable` field of each item, plus the continuation token. -/
structure EnvPage (τ : Type) where
  items : List String
  next_page_token : Option τ
deriving DecidableEq

/-- Outcome of one `_request` round trip for the variable listing. -/
inductive EnvPageResult (τ : Type) where
  | ok (p : EnvPage τ)
  | reqErr
  | parseErr
deriving DecidableEq

/-- Result of a terminating `list_environment_variables` run: the returned
set of names (every return statement returns a set, so no `Option` layer
is needed) and the request trace. -/
structure EnvOut (τ : Type) where
  ret : List String
  reqs : List (Option τ)
deriving DecidableEq

/-- The `while True` loop of `list_environment_variables` (lines 254-275). -/
def listEnvLoop {τ : Type} (S : Option τ → EnvPageResult τ) :
    Nat → Option τ → List String → List (Option τ) → Option (EnvOut τ)
  | 0, _, _, _ => none
  | fuel + 1, tok, acc, reqs =>
    match S tok with
    | .reqErr => some ⟨[], reqs ++ [tok]⟩
    | .parseErr => some ⟨[], reqs ++ [tok]⟩
    | .ok p =>
      let acc2 := p.items.foldl insertNoDup acc
      match p.next_page_token with
      | none => some ⟨acc2, reqs ++ [tok]⟩
      | some t => listEnvLoop S fuel (some t) acc2 (reqs ++ [tok])

/-- `CircleCIClient.list_environment_variables` (lines 239-278). -/
def list_environment_variables {τ : Type} (S : Option τ → EnvPageResult τ) (fuel : Nat) :
    Option (EnvOut τ) :=
  listEnvLoop S fuel none [] []

/-! ### Document validation (`load_config_yaml`, lines 96-109) -/

/-- The check `isinstance(item, dict) and len(item) == 1` (lines 105, 413). -/
def isSingleKVMap : Yaml → Bool
  | .map kvs => kvs.length == 1
  | _ => false

/-- Extraction of the single key/value pair of a one-entry mapping, as done
at lines 417-418 (`list(var_dict.keys())[0]`); `none` exactly when the
check `isSingleKVMap` fails. -/
def singleKV : Yaml → Option (String × Yaml)
  | .map [(k, v)] => some (k, v)
  | _ => none

/-- The inner item loop of the validation (lines 104-107): first item that
is not a single-entry mapping produces the error naming the context. -/
def checkItems (n : String) : List Yaml → Except String Unit
  | [] => .ok ()
  | item :: rest =>
    if isSingleKVMap item then checkItems n rest
    else .error ("Invalid variable format under context " ++ n ++
      ". Each list item should be a single key-value pair dictionary.")

/-- The outer context loop of the validation (lines 100-107): each value
must be a list, whose items must all be single-entry mappings; on success
the original group list is kept. -/
def validateGroups : List (String × Yaml) → Except String (List (String × List Yaml))
  | [] => .ok []
  | (n, v) :: rest =>
    match v with
    | .list items =>
      match checkItems n items with
      | .error e => .error e
      | .ok _ =>
        match validateGroups rest with
        | .error e => .error e
        | .ok tl => .ok ((n, items) :: tl)
    | _ => .error ("Invalid format for context " ++ n ++ ". Value should be a list.")

/-- `load_config_yaml` validation (lines 96-109): the root must be a
mapping, then the groups are checked. -/
def validateConfig : Yaml → Except String (List (String × List Yaml))
  | .map kvs => validateGroups kvs
  | y =>
    match y with
    | _ => .error "Invalid YAML format. Root should be a dictionary (mapping)."

/-- `load_config_yaml` as seen from `main`: `none` models an unreadable or
unparseable file (the `except` branches at lines 110-118), `some y` a
successfully parsed document that is then shape-checked. -/
def loadConfig : Option Yaml → Except String (List (String × List Yaml))
  | none => .error "Could not read or parse the configuration file."
  | some y => validateConfig y

/-- The shape predicate the validation enforces, written out directly:
value of every group is a list of single-entry mappings. -/
def groupShapeOK : Yaml → Bool
  | .list items => items.all isSingleKVMap
  | _ => false

/-- The full document shape predicate: root is a mapping and every group
value passes `groupShapeOK`. -/
def shapeOK : Yaml → Bool
  | .map kvs => kvs.all (fun p => groupShapeOK p.2)
  | _ => false

/-- Bool projection of an `Except` result. -/
def exceptOk {α : Type} : Except String α → Bool
  | .ok _ => true
  | .error _ => false

/-! ### The reconciliation loop of `main` (lines 318-435)

The mutating and per-group client operations are abstracted as a record of
result oracles; `main` is modelled as a function producing the process
outcome (`exit1` is true exactly when `sys.exit(1)` is reached) and the
trace of network calls and decision-log lines. -/

/-- Results of the client operations `main` invokes per group:
`create_context` (an `id`, or `None` on failure), the collapsed result of
`list_environment_variables` (an empty set on failure, see lines 239-278),
and `create_or_update_environment_variable` (success flag). -/
structure Client where
  createContext : String → Option String
  listEnvVars : String → List String
  upsert : String → String → String → Bool

/-- Network calls and decision-log lines emitted by `main`, in order. -/
inductive Ev where
  | listCtxsCall : Ev
  | processingCtx (name : String) : Ev
  | ctxExists (name id : String) : Ev
  | ctxNotFound (name : String) : Ev
  | dryWouldCreateCtx (name : String) : Ev
  | createCtxCall (name : String) : Ev
  | skipCtxCreateFailed (name : String) : Ev
  | processingVars (name id : String) : Ev
  | listVarsCall (id : String) : Ev
  | skipInvalidVar (ctx : String) : Ev
  | dryEnsure (ctx var action : String) : Ev
  | upsertCall (id var value : String) : Ev
  | varOk (action var ctx : String) : Ev
  | varFailed (var ctx : String) : Ev
deriving DecidableEq

/-- Lines 412-432: processing of one desired variable entry.  Invalid
entries are skipped with a warning; otherwise the action label is
`"Updated"` iff the name is in the fetched existing-names set, and in a
real run the upsert is invoked unconditionally. -/
def processVar (dry : Bool) (cl : Client) (ctxName cid : String)
    (existing : List String) (item : Yaml) : List Ev :=
  match singleKV item with
  | none => [.skipInvalidVar ctxName]
  | some (k, v) =>
    let action := if existing.contains k then "Updated" else "Created"
    if dry then [.dryEnsure ctxName k action]
    else
      let sv := pyStr v
      if cl.upsert cid k sv then [.upsertCall cid k sv, .varOk action k ctxName]
      else [.upsertCall cid k sv, .varFailed k ctxName]

/-- The `for var_dict in variables_list` loop (lines 412-432). -/
def processVars (dry : Bool) (cl : Client) (ctxName cid : String)
    (existing : List String) : List Yaml → List Ev
  | [] => []
  | item :: rest =>
    processVar dry cl ctxName cid existing item ++
      processVars dry cl ctxName cid existing rest

/-- Lines 399-432: the per-context variable phase.  The existing-names set
is fetched only in a real run (lines 403-405); in dry-run it stays the
empty set. -/
def processVarsPart (dry : Bool) (cl : Client) (ctxName cid : String)
    (vs : List Yaml) : List Ev :=
  if dry then
    Ev.processingVars ctxName cid :: processVars dry cl ctxName cid [] vs
  else
    Ev.processingVars ctxName cid :: Ev.listVarsCall cid ::
      processVars dry cl ctxName cid (cl.listEnvVars cid) vs

/-- Lines 379-432: processing of one context from the config.  Returns the
(possibly extended) in-memory snapshot and the emitted events.  On
creation failure the context is skipped (`continue`, line 395). -/
def processContext (dry : Bool) (cl : Client) (st : List (String × String))
    (ctxName : String) (vs : List Yaml) : List (String × String) × List Ev :=
  match truthyGet st ctxName with
  | some cid =>
    (st, Ev.processingCtx ctxName :: Ev.ctxExists ctxName cid ::
      processVarsPart dry cl ctxName cid vs)
  | none =>
    if dry then
      (st, Ev.processingCtx ctxName :: Ev.ctxNotFound ctxName ::
        Ev.dryWouldCreateCtx ctxName ::
        processVarsPart dry cl ctxName ("dry-run-new-id-" ++ ctxName) vs)
    else
      match cl.createContext ctxName with
      | none =>
        (st, [Ev.processingCtx ctxName, Ev.ctxNotFound ctxName,
              Ev.createCtxCall ctxName, Ev.skipCtxCreateFailed ctxName])
      | some cid =>
        if cid == "" then
          (st, [Ev.processingCtx ctxName, Ev.ctxNotFound ctxName,
                Ev.createCtxCall ctxName, Ev.skipCtxCreateFailed ctxName])
        else
          (dictInsert st ctxName cid,
           Ev.processingCtx ctxName :: Ev.ctxNotFound ctxName ::
             Ev.createCtxCall ctxName :: processVarsPart dry cl ctxName cid vs)

/-- The `for context_name, variables_list in config_data.items()` loop. -/
def mainRunLoop (dry : Bool) (cl : Client) :
    List (String × String) → List (String × List Yaml) → List Ev
  | _, [] => []
  | st, (n, vs) :: rest =>
    let r := processContext dry cl st n vs
    r.2 ++ mainRunLoop dry cl r.1 rest

/-- Outcome of `main`: whether `sys.exit(1)` was reached, and the trace. -/
structure MainOut where
  exit1 : Bool
  events : List Ev
deriving DecidableEq

/-- `main` (lines 318-435) after argument parsing.  `apiToken` is the
result of `get_api_token` (external credential acquisition), `raw` the
parsed YAML document (`none` for a read/parse failure), `listingRet` the
value of `client.list_contexts()` in a real run (kept as an `Option` so
that the `is None` check of line 373 is represented).  Stage order follows
the source: token check, config load and shape check plus the `if not
config_data` truthiness test, client construction (`ValueError` on empty
token or organization id), context listing (skipped and synthesized in
dry-run, lines 368-370), then the reconciliation loop. -/
def runMain (apiToken : Option String) (raw : Option Yaml) (dry : Bool) (orgId : String)
    (listingRet : Option (List (String × String))) (cl : Client) : MainOut :=
  match apiToken with
  | none => ⟨true, []⟩
  | some tok =>
    if tok == "" then ⟨true, []⟩
    else
      match loadConfig raw with
      | .error _ => ⟨true, []⟩
      | .ok cfg =>
        if cfg.isEmpty then ⟨true, []⟩
        else if orgId == "" then ⟨true, []⟩
        else if dry then
          ⟨false, mainRunLoop true cl (cfg.map (fun p => (p.1, "dry-run-id-" ++ p.1))) cfg⟩
        else
          match listingRet with
          | none => ⟨true, [Ev.listCtxsCall]⟩
          | some st0 => ⟨false, Ev.listCtxsCall :: mainRunLoop false cl st0 cfg⟩

/-! ### Auxiliary notions used by the claims -/

/-- A well-formed page chain for the group listing: starting from request
token `tok`, the server answers each request with the next page, and the
last page carries no continuation token. -/
inductive CtxChain {τ : Type} (S : Option τ → PageResult τ) :
    Option τ → List (Page τ) → Prop where
  | last (tok : Option τ) (p : Page τ) :
      S tok = .ok p → p.next_page_token = none → CtxChain S tok [p]
  | cons (tok : Option τ) (p : Page τ) (t : τ) (ps : List (Page τ)) :
      S tok = .ok p → p.next_page_token = some t → CtxChain S (some t) ps →
      CtxChain S tok (p :: ps)

/-- A group-listing traversal from `tok` that hits a request or parse
failure within `n` requests. -/
inductive CtxFailsIn {τ : Type} (S : Option τ → PageResult τ) :
    Option τ → Nat → Prop where
  | req (tok : Option τ) : S tok = .reqErr → CtxFailsIn S tok 1
  | parse (tok : Option τ) : S tok = .parseErr → CtxFailsIn S tok 1
  | step (tok : Option τ) (p : Page τ) (t : τ) (n : Nat) :
      S tok = .ok p → p.next_page_token = some t → CtxFailsIn S (some t) n →
      CtxFailsIn S tok (n + 1)

/-- A variable-listing traversal from `tok` that hits a request or parse
failure within `n` requests. -/
inductive EnvFailsIn {τ : Type} (S : Option τ → EnvPageResult τ) :
    Option τ → Nat → Prop where
  | req (tok : Option τ) : S tok = .reqErr → EnvFailsIn S tok 1
  | parse (tok : Option τ) : S tok = .parseErr → EnvFailsIn S tok 1
  | step (tok : Option τ) (p : EnvPage τ) (t : τ) (n : Nat) :
      S tok = .ok p → p.next_page_token = some t → EnvFailsIn S (some t) n →
      EnvFailsIn S tok (n + 1)

/-- The accumulation of all page items into the contexts dictionary,
exactly as the loop body performs it. -/
def foldPagesCtx {τ : Type} (acc : List (String × String)) :
    List (Page τ) → List (String × String)
  | [] => acc
  | p :: ps => foldPagesCtx (p.items.foldl (fun d kv => dictInsert d kv.1 kv.2) acc) ps

/-- The request-token trace the loop produces when following a chain of
pages starting from request token `tok`. -/
def ctxReqs {τ : Type} : Option τ → List (Page τ) → List (Option τ)
  | _, [] => []
  | tok, p :: ps =>
    match p.next_page_token with
    | none => [tok]
    | some t => tok :: ctxReqs (some t) ps

/-- Whether an event is a call to the variable-upsert endpoint. -/
def isUpsertCall : Ev → Bool
  | .upsertCall _ _ _ => true
  | _ => false

/-- Whether an event is a state-mutating remote call (context creation or
variable upsert). -/
def isMutatingCall : Ev → Bool
  | .upsertCall _ _ _ => true
  | .createCtxCall _ => true
  | _ => false

/-- Number of upsert calls in a trace. -/
def countUpserts (evs : List Ev) : Nat := (evs.filter isUpsertCall).length

/-- Total number of desired variable entries in a config. -/
def totalVarCount (cfg : List (String × List Yaml)) : Nat :=
  (cfg.map (fun p => p.2.length)).sum

/-! ### Concrete instances used by witnesses and counterexamples -/

/-- First page of the three-page listing scenario of the spec. -/
def pg1 : Page Nat := ⟨[("a", "1"), ("b", "2")], some 1⟩

/-- Second page of the three-page listing scenario. -/
def pg2 : Page Nat := ⟨[("c", "3"), ("d", "4")], some 2⟩

/-- Third and last page of the three-page listing scenario. -/
def pg3 : Page Nat := ⟨[("e", "5"), ("f", "6")], none⟩

/-- A simulated group-listing server with three pages of two items each. -/
def s3 : Option Nat → PageResult Nat
  | none => .ok pg1
  | some 1 => .ok pg2
  | some 2 => .ok pg3
  | some _ => .reqErr

/-- A group-listing server whose very first request fails at transport
level. -/
def failServer : Option Nat → PageResult Nat := fun _ => .reqErr

/-- A variable-listing server whose very first request fails. -/
def envFailServer : Option Nat → EnvPageResult Nat := fun _ => .reqErr

/-- A client whose every operation succeeds and that reports no existing
variables. -/
def okClient : Client :=
  ⟨fun n => some ("id-" ++ n), fun _ => [], fun _ _ _ => true⟩

/-- A client that knows variable `A` in context id `cid-1` and accepts all
upserts. -/
def clientA : Client :=
  ⟨fun n => some ("cid-" ++ n), fun _ => ["A"], fun _ _ _ => true⟩

/-- A client for which creation of context `g1` fails and creation of any
other context succeeds. -/
def failG1Client : Client :=
  ⟨fun n => if n == "g1" then none else some ("id-" ++ n), fun _ => [], fun _ _ _ => true⟩

/-- Desired config with one group holding one variable. -/
def cfgOne : Yaml := .map [("grp", .list [.map [("A", .str "x")]])]

/-- Desired variable list of the classification example of the spec. -/
def vsAB : List Yaml := [.map [("A", .str "x")], .map [("B", .str "y")]]

/-- Desired config with two groups, used for the partial-failure scenario. -/
def cfgTwo : Yaml :=
  .map [("g1", .list [.map [("A", .str "x")]]), ("g2", .list [.map [("B", .str "y")]])]

/-! ## Helper lemmas about the paginated listings -/

theorem ctxChain_ne_nil {τ : Type} {S : Option τ → PageResult τ} {tok : Option τ}
    {ps : List (Page τ)} (h : CtxChain S tok ps) : ps ≠ [] := by
  cases h <;> simp

theorem listCtxLoop_of_chain {τ : Type} {S : Option τ → PageResult τ} {tok : Option τ}
    {ps : List (Page τ)} (h : CtxChain S tok ps) :
    ∀ fuel acc reqs, ps.length ≤ fuel →
      listCtxLoop S fuel tok acc reqs =
        some ⟨some (foldPagesCtx acc ps), reqs ++ ctxReqs tok ps⟩ := by
  induction h with
  | last tok p hS hnone =>
    intro fuel acc reqs hfuel
    cases fuel with
    | zero => simp at hfuel
    | succ f => simp [listCtxLoop, hS, hnone, foldPagesCtx, ctxReqs]
  | cons tok p t ps hS hnext hch ih =>
    intro fuel acc reqs hfuel
    cases fuel with
    | zero => simp at hfuel
    | succ f =>
      have hf : ps.length ≤ f := by simpa using hfuel
      simp only [listCtxLoop, hS, hnext]
      rw [ih f _ _ hf]
      simp [foldPagesCtx, ctxReqs, hnext]

theorem ctxReqs_of_chain {τ : Type} {S : Option τ → PageResult τ} {tok : Option τ}
    {ps : List (Page τ)} (h : CtxChain S tok ps) :
    ctxReqs tok ps = tok :: ps.dropLast.map (fun p => p.next_page_token) := by
  induction h with
  | last tok p hS hnone => simp [ctxReqs, hnone]
  | cons tok p t ps hS hnext hch ih =>
    have hne := ctxChain_ne_nil hch
    obtain ⟨q, qs, rfl⟩ := List.exists_cons_of_ne_nil hne
    have h1 : ctxReqs tok (p :: q :: qs) = tok :: ctxReqs (some t) (q :: qs) := by
      simp [ctxReqs, hnext]
    have h2 : (p :: q :: qs).dropLast = p :: (q :: qs).dropLast := rfl
    rw [h1, ih, h2, List.map_cons, hnext]

/-! ## Claim C2 -/

/-- Claim C2: for every paginated group-listing response sequence forming a
page chain, `list_contexts` traverses all pages, issuing exactly one
request per page, carrying no token on the first request and the previous
page token on every later request, stopping at the first page without a
token, and returns the accumulated mapping of the items of all pages. -/
theorem list_contexts_pagination {τ : Type} (S : Option τ → PageResult τ)
    (ps : List (Page τ)) (fuel : Nat)
    (hch : CtxChain S none ps) (hfuel : ps.length ≤ fuel) :
    list_contexts S fuel = some ⟨some (foldPagesCtx [] ps), ctxReqs none ps⟩
    ∧ (ctxReqs none ps).length = ps.length
    ∧ ctxReqs none ps = none :: ps.dropLast.map (fun p => p.next_page_token) := by
  have h1 := listCtxLoop_of_chain hch fuel [] [] hfuel
  have h3 := ctxReqs_of_chain hch
  have hpos : 0 < ps.length := List.length_pos.mpr (ctxChain_ne_nil hch)
  refine ⟨by simpa [list_contexts] using h1, ?_, h3⟩
  rw [h3]
  simp [List.length_dropLast]
  omega

/-- Witness for C2: the simulated three-page listing with two items per
page and distinct continuation tokens yields all six items with exactly
three requests. -/
theorem list_contexts_pagination_witness :
    list_contexts s3 3 =
      some ⟨some [("a", "1"), ("b", "2"), ("c", "3"), ("d", "4"), ("e", "5"), ("f", "6")],
            [none, some 1, some 2]⟩
    ∧ ([none, some 1, some 2] : List (Option Nat)).length = 3 := by
  have hch : CtxChain s3 none [pg1, pg2, pg3] :=
    CtxChain.cons none pg1 1 [pg2, pg3] rfl rfl
      (CtxChain.cons (some 1) pg2 2 [pg3] rfl rfl
        (CtxChain.last (some 2) pg3 rfl rfl))
  have h := list_contexts_pagination s3 [pg1, pg2, pg3] 3 hch (by simp)
  refine ⟨?_, rfl⟩
  rw [h.1]
  rfl

/-! ## Helper lemmas about failure outcomes and the main stages -/

theorem listCtxLoop_ret_some {τ : Type} (S : Option τ → PageResult τ) :
    ∀ fuel tok acc reqs out, listCtxLoop S fuel tok acc reqs = some out →
      ∃ d, out.ret = some d := by
  intro fuel
  induction fuel with
  | zero => intro tok acc reqs out h; simp [listCtxLoop] at h
  | succ f ih =>
    intro tok acc reqs out h
    simp only [listCtxLoop] at h
    cases hS : S tok with
    | reqErr =>
      rw [hS] at h
      cases h
      exact ⟨[], rfl⟩
    | parseErr =>
      rw [hS] at h
      cases h
      exact ⟨[], rfl⟩
    | ok p =>
      rw [hS] at h
      simp only at h
      cases hN : p.next_page_token with
      | none =>
        rw [hN] at h
        cases h
        exact ⟨_, rfl⟩
      | some t =>
        rw [hN] at h
        exact ih _ _ _ _ h

theorem listCtxLoop_of_fails {τ : Type} {S : Option τ → PageResult τ} {tok : Option τ}
    {n : Nat} (h : CtxFailsIn S tok n) :
    ∀ fuel acc reqs, n ≤ fuel →
      ∃ rs, listCtxLoop S fuel tok acc reqs = some ⟨some [], rs⟩ := by
  induction h with
  | req tok hS =>
    intro fuel acc reqs hfuel
    cases fuel with
    | zero => simp at hfuel
    | succ f => exact ⟨reqs ++ [tok], by simp [listCtxLoop, hS]⟩
  | parse tok hS =>
    intro fuel acc reqs hfuel
    cases fuel with
    | zero => simp at hfuel
    | succ f => exact ⟨reqs ++ [tok], by simp [listCtxLoop, hS]⟩
  | step tok p t n hS hnext hfail ih =>
    intro fuel acc reqs hfuel
    cases fuel with
    | zero => simp at hfuel
    | succ f =>
      have hf : n ≤ f := by omega
      obtain ⟨rs, hrs⟩ := ih f (p.items.foldl (fun d kv => dictInsert d kv.1 kv.2) acc)
        (reqs ++ [tok]) hf
      exact ⟨rs, by simp [listCtxLoop, hS, hnext, hrs]⟩

theorem runMain_real_ok (tokStr : String) (raw : Option Yaml) (orgId : String)
    (st0 : List (String × String)) (cl : Client) (cfg : List (String × List Yaml))
    (hload : loadConfig raw = .ok cfg) (hne : cfg.isEmpty = false)
    (htok : tokStr ≠ "") (horg : orgId ≠ "") :
    runMain (some tokStr) raw false orgId (some st0) cl =
      ⟨false, Ev.listCtxsCall :: mainRunLoop false cl st0 cfg⟩ := by
  simp [runMain, hload, hne, htok, horg]

/-! ## Claim C10 -/

/-- Claim C10: every terminating execution of `list_contexts` returns a
dictionary (an empty one on any request or parse failure) and never the
Python value `None`; consequently feeding the returned value to `main`
never takes the `existing_contexts is None` abort branch, so a run that
passes the earlier setup stages finishes with exit status zero. -/
theorem list_contexts_never_none {τ : Type} (S : Option τ → PageResult τ) (fuel : Nat) :
    (∀ out, list_contexts S fuel = some out → ∃ d, out.ret = some d)
    ∧ (∀ n, CtxFailsIn S none n → n ≤ fuel →
        ∃ rs, list_contexts S fuel = some ⟨some [], rs⟩)
    ∧ (∀ out tokStr raw orgId cl cfg, list_contexts S fuel = some out →
        loadConfig raw = .ok cfg → cfg.isEmpty = false → tokStr ≠ "" → orgId ≠ "" →
        (runMain (some tokStr) raw false orgId out.ret cl).exit1 = false) := by
  refine ⟨fun out h => listCtxLoop_ret_some S fuel none [] [] out h,
    fun n hfail hfuel => listCtxLoop_of_fails hfail fuel [] [] hfuel,
    fun out tokStr raw orgId cl cfg h hload hne htok horg => ?_⟩
  obtain ⟨d, hd⟩ := listCtxLoop_ret_some S fuel none [] [] out h
  rw [hd, runMain_real_ok tokStr raw orgId d cl cfg hload hne htok horg]

/-- Witness for C10: the listing whose first request fails still returns a
dictionary (the empty one), and main, fed that return value, does not take
the abort branch. -/
theorem list_contexts_never_none_witness :
    (∃ rs, list_contexts failServer 1 = some ⟨some [], rs⟩)
    ∧ (runMain (some "tk") (some cfgOne) false "org-1" ((⟨some [], [none]⟩ :
        ListCtxOut Nat).ret) okClient).exit1 = false := by
  have h := list_contexts_never_none failServer 1
  refine ⟨h.2.1 1 (CtxFailsIn.req none rfl) (by omega), ?_⟩
  exact h.2.2 ⟨some [], [none]⟩ "tk" (some cfgOne) "org-1" okClient
    [("grp", [.map [("A", .str "x")]])] rfl rfl rfl (by decide) (by decide)

/-! ## Claim C1 (code bug) -/

/-- Claim C1 is violated by the code: when the very first group-listing
request fails, `list_contexts` returns the empty dictionary (not `None`),
so the `existing_contexts is None` abort at lines 373-375 never fires.
`main` proceeds with an empty snapshot, treats every desired group as
missing, and still issues a `create_context` call and an upsert call,
finishing with exit status zero — contradicting both the spec and the
dead abort branch in `main` itself. -/
theorem listing_failure_not_fatal_bug :
    list_contexts failServer 1 = some ⟨some [], [none]⟩
    ∧ (runMain (some "t") (some cfgOne) false "o" (some []) okClient).exit1 = false
    ∧ Ev.createCtxCall "grp" ∈
        (runMain (some "t") (some cfgOne) false "o" (some []) okClient).events
    ∧ Ev.upsertCall "id-grp" "A" "x" ∈
        (runMain (some "t") (some cfgOne) false "o" (some []) okClient).events := by
  refine ⟨rfl, rfl, ?_, ?_⟩ <;> decide

/-! ## Helper lemmas about the variable loop -/

theorem mem_processVars_upsert (cl : Client) (ctxName cid : String) (ex : List String) :
    ∀ (vs : List Yaml) (item : Yaml) (k : String) (v : Yaml),
      item ∈ vs → singleKV item = some (k, v) →
      Ev.upsertCall cid k (pyStr v) ∈ processVars false cl ctxName cid ex vs := by
  intro vs
  induction vs with
  | nil => intro item k v h _; simp at h
  | cons hd tl ih =>
    intro item k v hmem hkv
    simp only [processVars]
    rcases List.mem_cons.mp hmem with rfl | hmem2
    · apply List.mem_append_left
      cases hcl : cl.upsert cid k (pyStr v) <;> simp [processVar, hkv, hcl]
    · exact List.mem_append_right _ (ih item k v hmem2 hkv)

theorem mem_processVars_varOk (cl : Client) (ctxName cid : String) (ex : List String) :
    ∀ (vs : List Yaml) (item : Yaml) (k : String) (v : Yaml),
      item ∈ vs → singleKV item = some (k, v) → cl.upsert cid k (pyStr v) = true →
      Ev.varOk (if ex.contains k then "Updated" else "Created") k ctxName
        ∈ processVars false cl ctxName cid ex vs := by
  intro vs
  induction vs with
  | nil => intro item k v h _ _; simp at h
  | cons hd tl ih =>
    intro item k v hmem hkv hup
    simp only [processVars]
    rcases List.mem_cons.mp hmem with rfl | hmem2
    · apply List.mem_append_left
      simp [processVar, hkv, hup]
    · exact List.mem_append_right _ (ih item k v hmem2 hkv hup)

theorem countUpserts_append (a b : List Ev) :
    countUpserts (a ++ b) = countUpserts a + countUpserts b := by
  simp [countUpserts, List.filter_append]

theorem countUpserts_processVar {cl : Client} {ctxName cid : String} {ex : List String}
    {item : Yaml} (h : (singleKV item).isSome) :
    countUpserts (processVar false cl ctxName cid ex item) = 1 := by
  cases hkv : singleKV item with
  | none => rw [hkv] at h; simp at h
  | some kv =>
    obtain ⟨k, v⟩ := kv
    cases hcl : cl.upsert cid k (pyStr v) <;>
      simp [processVar, hkv, hcl, countUpserts, isUpsertCall]

theorem countUpserts_processVars {cl : Client} {ctxName cid : String} {ex : List String} :
    ∀ vs : List Yaml, (∀ item ∈ vs, (singleKV item).isSome) →
      countUpserts (processVars false cl ctxName cid ex vs) = vs.length := by
  intro vs
  induction vs with
  | nil => intro _; simp [processVars, countUpserts]
  | cons hd tl ih =>
    intro hvalid
    simp only [processVars]
    rw [countUpserts_append, countUpserts_processVar (hvalid hd (by simp)),
      ih (fun item h => hvalid item (by simp [h]))]
    simp only [List.length_cons]
    omega

theorem processVars_upserts_indep {cl : Client} {ctxName cid : String} :
    ∀ (vs : List Yaml) (ex1 ex2 : List String),
      (processVars false cl ctxName cid ex1 vs).filter isUpsertCall =
        (processVars false cl ctxName cid ex2 vs).filter isUpsertCall := by
  intro vs
  induction vs with
  | nil => intro ex1 ex2; rfl
  | cons hd tl ih =>
    intro ex1 ex2
    simp only [processVars, List.filter_append]
    rw [ih ex1 ex2]
    congr 1
    cases hkv : singleKV hd with
    | none => simp [processVar, hkv]
    | some kv =>
      obtain ⟨k, v⟩ := kv
      cases hcl : cl.upsert cid k (pyStr v) <;>
        simp [processVar, hkv, hcl, isUpsertCall]

theorem listEnvLoop_of_fails {τ : Type} {S : Option τ → EnvPageResult τ} {tok : Option τ}
    {n : Nat} (h : EnvFailsIn S tok n) :
    ∀ fuel acc reqs, n ≤ fuel →
      ∃ rs, listEnvLoop S fuel tok acc reqs = some ⟨[], rs⟩ := by
  induction h with
  | req tok hS =>
    intro fuel acc reqs hfuel
    cases fuel with
    | zero => simp at hfuel
    | succ f => exact ⟨reqs ++ [tok], by simp [listEnvLoop, hS]⟩
  | parse tok hS =>
    intro fuel acc reqs hfuel
    cases fuel with
    | zero => simp at hfuel
    | succ f => exact ⟨reqs ++ [tok], by simp [listEnvLoop, hS]⟩
  | step tok p t n hS hnext hfail ih =>
    intro fuel acc reqs hfuel
    cases fuel with
    | zero => simp at hfuel
    | succ f =>
      have hf : n ≤ f := by omega
      obtain ⟨rs, hrs⟩ := ih f (p.items.foldl insertNoDup acc) (reqs ++ [tok]) hf
      exact ⟨rs, by simp [listEnvLoop, hS, hnext, hrs]⟩

/-! ## Claim C3 -/

/-- Claim C3: a failure while listing the existing variable names of a
group makes `list_environment_variables` return the empty set, and `main`
then proceeds for that group with the empty existing-set: every valid
desired variable is classified with the label `Created` and is still
upserted (the upsert call is issued regardless), and such a failure never
makes the run exit non-zero. -/
theorem env_listing_failure_degrades {τ : Type} (S : Option τ → EnvPageResult τ)
    (fuel n : Nat) (cl : Client) (ctxName cid : String) (vs : List Yaml)
    (hfail : EnvFailsIn S none n) (hfuel : n ≤ fuel)
    (hcl : cl.listEnvVars cid = []) :
    (∃ rs, list_environment_variables S fuel = some ⟨[], rs⟩)
    ∧ processVarsPart false cl ctxName cid vs =
        Ev.processingVars ctxName cid :: Ev.listVarsCall cid ::
          processVars false cl ctxName cid [] vs
    ∧ (∀ item k v, item ∈ vs → singleKV item = some (k, v) →
        Ev.upsertCall cid k (pyStr v) ∈ processVars false cl ctxName cid [] vs
        ∧ (cl.upsert cid k (pyStr v) = true →
            Ev.varOk "Created" k ctxName ∈ processVars false cl ctxName cid [] vs))
    ∧ (∀ tokStr raw orgId st0 cfg, loadConfig raw = Except.ok cfg →
        cfg.isEmpty = false → tokStr ≠ "" → orgId ≠ "" →
        (runMain (some tokStr) raw false orgId (some st0) cl).exit1 = false) := by
  refine ⟨listEnvLoop_of_fails hfail fuel [] [] hfuel,
    by simp [processVarsPart, hcl], ?_, ?_⟩
  · intro item k v hmem hkv
    refine ⟨mem_processVars_upsert cl ctxName cid [] vs item k v hmem hkv, fun hup => ?_⟩
    exact mem_processVars_varOk cl ctxName cid [] vs item k v hmem hkv hup
  · intro tokStr raw orgId st0 cfg hload hne htok horg
    rw [runMain_real_ok tokStr raw orgId st0 cl cfg hload hne htok horg]

/-- Witness for C3: a variable listing whose first request fails returns
the empty set, and the lone desired variable `A` of the group is still
upserted and reported with the label `Created`. -/
theorem env_listing_failure_degrades_witness :
    (∃ rs, list_environment_variables envFailServer 1 = some ⟨[], rs⟩)
    ∧ Ev.varOk "Created" "A" "grp" ∈
        processVars false okClient "grp" "cidX" [] [.map [("A", .str "x")]] := by
  have h := env_listing_failure_degrades envFailServer 1 1 okClient "grp" "cidX"
    [.map [("A", .str "x")]] (EnvFailsIn.req none rfl) (by omega) rfl
  exact ⟨h.1, (h.2.2.1 (.map [("A", .str "x")]) "A" (.str "x") (by simp) rfl).2 rfl⟩

/-! ## Claim C5 -/

/-- Claim C5: in a real run each desired variable is classified `Updated`
exactly when its name is in the fetched existing-names set and `Created`
otherwise, the classification does not change the upsert call that is
issued, and exactly one upsert call is issued per desired variable. -/
theorem variable_classification (cl : Client) (ctxName cid : String)
    (existing : List String) (vs : List Yaml)
    (hvalid : ∀ item ∈ vs, (singleKV item).isSome) :
    countUpserts (processVars false cl ctxName cid existing vs) = vs.length
    ∧ (∀ ex2 : List String,
        (processVars false cl ctxName cid existing vs).filter isUpsertCall =
          (processVars false cl ctxName cid ex2 vs).filter isUpsertCall)
    ∧ (∀ item k v, item ∈ vs → singleKV item = some (k, v) →
        cl.upsert cid k (pyStr v) = true →
        Ev.varOk (if existing.contains k then "Updated" else "Created") k ctxName
          ∈ processVars false cl ctxName cid existing vs)
    ∧ (∀ k : String,
        ((if existing.contains k then "Updated" else "Created") = "Updated")
          ↔ existing.contains k = true) := by
  refine ⟨countUpserts_processVars vs hvalid, fun ex2 => processVars_upserts_indep vs existing ex2,
    fun item k v hmem hkv hup => mem_processVars_varOk cl ctxName cid existing vs item k v hmem hkv hup, fun k => ?_⟩
  cases h : existing.contains k <;> simp [h]

/-- Witness for C5: with existing set containing `A` and desired list
with entries `A` and `B`, `A` is reported updated, `B` created, and
exactly two upsert calls are issued. -/
theorem variable_classification_witness :
    countUpserts (processVars false clientA "ctx" "cid-1" ["A"] vsAB) = 2
    ∧ Ev.varOk "Updated" "A" "ctx" ∈ processVars false clientA "ctx" "cid-1" ["A"] vsAB
    ∧ Ev.varOk "Created" "B" "ctx" ∈ processVars false clientA "ctx" "cid-1" ["A"] vsAB := by
  have h := variable_classification clientA "ctx" "cid-1" ["A"] vsAB (by decide)
  refine ⟨h.1, ?_, ?_⟩
  · exact h.2.2.1 (.map [("A", .str "x")]) "A" (.str "x") (by simp [vsAB]) rfl rfl
  · exact h.2.2.1 (.map [("B", .str "y")]) "B" (.str "y") (by simp [vsAB]) rfl rfl

/-! ## Claim C4 -/

/-- Claim C4: when creating a missing group fails, that group is skipped
entirely — its events are exactly the four log lines, with no upsert and
no variable fetch — and the loop continues with the next group on an
unchanged snapshot, so a later missing group whose creation succeeds
still has its variables fully processed (each valid desired variable is
upserted).  A creation failure never makes the run exit non-zero. -/
theorem create_failure_skips_group (cl : Client) (st : List (String × String))
    (g1 g2 id2 : String) (vs1 vs2 : List Yaml) (rest : List (String × List Yaml))
    (h1 : truthyGet st g1 = none) (hc1 : cl.createContext g1 = none)
    (h2 : truthyGet st g2 = none) (hc2 : cl.createContext g2 = some id2)
    (hid2 : id2 ≠ "") :
    mainRunLoop false cl st ((g1, vs1) :: (g2, vs2) :: rest) =
      [Ev.processingCtx g1, Ev.ctxNotFound g1, Ev.createCtxCall g1,
       Ev.skipCtxCreateFailed g1]
      ++ (Ev.processingCtx g2 :: Ev.ctxNotFound g2 :: Ev.createCtxCall g2 ::
          processVarsPart false cl g2 id2 vs2)
      ++ mainRunLoop false cl (dictInsert st g2 id2) rest
    ∧ (∀ cid k v, Ev.upsertCall cid k v ∉
        [Ev.processingCtx g1, Ev.ctxNotFound g1, Ev.createCtxCall g1,
         Ev.skipCtxCreateFailed g1])
    ∧ (∀ item k v, item ∈ vs2 → singleKV item = some (k, v) →
        Ev.upsertCall id2 k (pyStr v) ∈ processVarsPart false cl g2 id2 vs2)
    ∧ (∀ tokStr raw orgId st0 cfg, loadConfig raw = Except.ok cfg →
        cfg.isEmpty = false → tokStr ≠ "" → orgId ≠ "" →
        (runMain (some tokStr) raw false orgId (some st0) cl).exit1 = false) := by
  refine ⟨?_, by intro cid k v; simp, ?_, ?_⟩
  · simp [mainRunLoop, processContext, h1, hc1, h2, hc2, hid2]
  · intro item k v hmem hkv
    have hpp : processVarsPart false cl g2 id2 vs2 =
        Ev.processingVars g2 id2 :: Ev.listVarsCall id2 ::
          processVars false cl g2 id2 (cl.listEnvVars id2) vs2 := by
      simp [processVarsPart]
    rw [hpp]
    exact List.mem_cons_of_mem _ (List.mem_cons_of_mem _
      (mem_processVars_upsert cl g2 id2 (cl.listEnvVars id2) vs2 item k v hmem hkv))
  · intro tokStr raw orgId st0 cfg hload hne htok horg
    rw [runMain_real_ok tokStr raw orgId st0 cl cfg hload hne htok horg]

/-- Witness for C4: with two missing groups where creation of `g1` fails
and creation of `g2` succeeds, the loop skips `g1` (no upsert, no variable
fetch) and fully processes the variables of `g2`. -/
theorem create_failure_skips_group_witness :
    mainRunLoop false failG1Client []
      [("g1", [.map [("A", .str "x")]]), ("g2", [.map [("B", .str "y")]])] =
      [Ev.processingCtx "g1", Ev.ctxNotFound "g1", Ev.createCtxCall "g1",
       Ev.skipCtxCreateFailed "g1",
       Ev.processingCtx "g2", Ev.ctxNotFound "g2", Ev.createCtxCall "g2",
       Ev.processingVars "g2" "id-g2", Ev.listVarsCall "id-g2",
       Ev.upsertCall "id-g2" "B" "y", Ev.varOk "Created" "B" "g2"]
    ∧ Ev.upsertCall "id-g2" "B" "y" ∈
        processVarsPart false failG1Client "g2" "id-g2" [.map [("B", .str "y")]] := by
  have h := create_failure_skips_group failG1Client [] "g1" "g2" "id-g2"
    [.map [("A", .str "x")]] [.map [("B", .str "y")]] [] rfl rfl rfl rfl (by decide)
  refine ⟨?_, h.2.2.1 (.map [("B", .str "y")]) "B" (.str "y") (by simp) rfl⟩
  rw [h.1]
  rfl

/-! ## Helper lemmas about the dry-run path -/

theorem processVars_dry_no_mut (cl : Client) (ctxName cid : String) (ex : List String) :
    ∀ (vs : List Yaml) (e : Ev), e ∈ processVars true cl ctxName cid ex vs →
      isMutatingCall e = false := by
  intro vs
  induction vs with
  | nil => intro e h; simp [processVars] at h
  | cons hd tl ih =>
    intro e h
    simp only [processVars] at h
    rcases List.mem_append.mp h with h1 | h2
    · cases hkv : singleKV hd with
      | none => simp [processVar, hkv] at h1; subst h1; rfl
      | some kv =>
        obtain ⟨k, v⟩ := kv
        simp [processVar, hkv] at h1
        subst h1; rfl
    · exact ih e h2

theorem mem_processVars_dryEnsure (cl : Client) (ctxName cid : String) :
    ∀ (vs : List Yaml) (item : Yaml) (k : String) (v : Yaml),
      item ∈ vs → singleKV item = some (k, v) →
      Ev.dryEnsure ctxName k "Created" ∈ processVars true cl ctxName cid [] vs := by
  intro vs
  induction vs with
  | nil => intro item k v h _; simp at h
  | cons hd tl ih =>
    intro item k v hmem hkv
    simp only [processVars]
    rcases List.mem_cons.mp hmem with rfl | hmem2
    · apply List.mem_append_left
      simp [processVar, hkv]
    · exact List.mem_append_right _ (ih item k v hmem2 hkv)

theorem processVars_dry_action (cl : Client) (ctxName cid : String) :
    ∀ (vs : List Yaml) (g k a : String),
      Ev.dryEnsure g k a ∈ processVars true cl ctxName cid [] vs → a = "Created" := by
  intro vs
  induction vs with
  | nil => intro g k a h; simp [processVars] at h
  | cons hd tl ih =>
    intro g k a h
    simp only [processVars] at h
    rcases List.mem_append.mp h with h1 | h2
    · cases hkv : singleKV hd with
      | none => simp [processVar, hkv] at h1
      | some kv =>
        obtain ⟨k0, v0⟩ := kv
        simp [processVar, hkv] at h1
        exact h1.2.2
    · exact ih g k a h2

theorem processContext_dry_fst (cl : Client) (st : List (String × String))
    (n : String) (vs : List Yaml) : (processContext true cl st n vs).1 = st := by
  cases htg : truthyGet st n <;> simp [processContext, htg]

theorem processContext_dry_no_mut (cl : Client) (st : List (String × String))
    (n : String) (vs : List Yaml) :
    ∀ e ∈ (processContext true cl st n vs).2, isMutatingCall e = false := by
  intro e he
  cases htg : truthyGet st n with
  | some cid =>
    have hev : (processContext true cl st n vs).2 =
        Ev.processingCtx n :: Ev.ctxExists n cid :: Ev.processingVars n cid ::
          processVars true cl n cid [] vs := by
      simp [processContext, htg, processVarsPart]
    rw [hev] at he
    rcases List.mem_cons.mp he with rfl | he
    · rfl
    rcases List.mem_cons.mp he with rfl | he
    · rfl
    rcases List.mem_cons.mp he with rfl | he
    · rfl
    exact processVars_dry_no_mut cl n cid [] vs e he
  | none =>
    have hev : (processContext true cl st n vs).2 =
        Ev.processingCtx n :: Ev.ctxNotFound n :: Ev.dryWouldCreateCtx n ::
          Ev.processingVars n ("dry-run-new-id-" ++ n) ::
          processVars true cl n ("dry-run-new-id-" ++ n) [] vs := by
      simp [processContext, htg, processVarsPart]
    rw [hev] at he
    rcases List.mem_cons.mp he with rfl | he
    · rfl
    rcases List.mem_cons.mp he with rfl | he
    · rfl
    rcases List.mem_cons.mp he with rfl | he
    · rfl
    rcases List.mem_cons.mp he with rfl | he
    · rfl
    exact processVars_dry_no_mut cl n _ [] vs e he

theorem processContext_dry_processing_mem (cl : Client) (st : List (String × String))
    (n : String) (vs : List Yaml) :
    Ev.processingCtx n ∈ (processContext true cl st n vs).2 := by
  cases htg : truthyGet st n <;> simp [processContext, htg]

theorem processContext_dry_dryEnsure_mem (cl : Client) (st : List (String × String))
    (n : String) (vs : List Yaml) (item : Yaml) (k : String) (v : Yaml)
    (hmem : item ∈ vs) (hkv : singleKV item = some (k, v)) :
    Ev.dryEnsure n k "Created" ∈ (processContext true cl st n vs).2 := by
  cases htg : truthyGet st n with
  | some cid =>
    have hm := mem_processVars_dryEnsure cl n cid vs item k v hmem hkv
    simp only [processContext, htg, processVarsPart, if_pos]
    exact List.mem_cons_of_mem _ (List.mem_cons_of_mem _ (List.mem_cons_of_mem _ hm))
  | none =>
    have hm := mem_processVars_dryEnsure cl n ("dry-run-new-id-" ++ n) vs item k v hmem hkv
    simp only [processContext, htg, processVarsPart, if_pos]
    exact List.mem_cons_of_mem _ (List.mem_cons_of_mem _ (List.mem_cons_of_mem _
      (List.mem_cons_of_mem _ hm)))

theorem processContext_dry_action (cl : Client) (st : List (String × String))
    (n : String) (vs : List Yaml) :
    ∀ g k a, Ev.dryEnsure g k a ∈ (processContext true cl st n vs).2 → a = "Created" := by
  intro g k a he
  cases htg : truthyGet st n with
  | some cid =>
    have hev : (processContext true cl st n vs).2 =
        Ev.processingCtx n :: Ev.ctxExists n cid :: Ev.processingVars n cid ::
          processVars true cl n cid [] vs := by
      simp [processContext, htg, processVarsPart]
    rw [hev] at he
    rcases List.mem_cons.mp he with h | he
    · cases h
    rcases List.mem_cons.mp he with h | he
    · cases h
    rcases List.mem_cons.mp he with h | he
    · cases h
    exact processVars_dry_action cl n cid vs g k a he
  | none =>
    have hev : (processContext true cl st n vs).2 =
        Ev.processingCtx n :: Ev.ctxNotFound n :: Ev.dryWouldCreateCtx n ::
          Ev.processingVars n ("dry-run-new-id-" ++ n) ::
          processVars true cl n ("dry-run-new-id-" ++ n) [] vs := by
      simp [processContext, htg, processVarsPart]
    rw [hev] at he
    rcases List.mem_cons.mp he with h | he
    · cases h
    rcases List.mem_cons.mp he with h | he
    · cases h
    rcases List.mem_cons.mp he with h | he
    · cases h
    rcases List.mem_cons.mp he with h | he
    · cases h
    exact processVars_dry_action cl n _ vs g k a he

theorem mainRunLoop_dry_no_mut (cl : Client) :
    ∀ (cfg : List (String × List Yaml)) (st : List (String × String)) (e : Ev),
      e ∈ mainRunLoop true cl st cfg → isMutatingCall e = false := by
  intro cfg
  induction cfg with
  | nil => intro st e h; simp [mainRunLoop] at h
  | cons hd tl ih =>
    intro st e h
    obtain ⟨n, vs⟩ := hd
    simp only [mainRunLoop] at h
    rcases List.mem_append.mp h with h1 | h2
    · exact processContext_dry_no_mut cl st n vs e h1
    · exact ih _ e h2

theorem mainRunLoop_dry_action (cl : Client) :
    ∀ (cfg : List (String × List Yaml)) (st : List (String × String)) (g k a : String),
      Ev.dryEnsure g k a ∈ mainRunLoop true cl st cfg → a = "Created" := by
  intro cfg
  induction cfg with
  | nil => intro st g k a h; simp [mainRunLoop] at h
  | cons hd tl ih =>
    intro st g k a h
    obtain ⟨n, vs⟩ := hd
    simp only [mainRunLoop] at h
    rcases List.mem_append.mp h with h1 | h2
    · exact processContext_dry_action cl st n vs g k a h1
    · exact ih _ g k a h2

theorem mainRunLoop_dry_enum (cl : Client) :
    ∀ (cfg : List (String × List Yaml)) (st : List (String × String))
      (g : String) (vsg : List Yaml), (g, vsg) ∈ cfg →
      Ev.processingCtx g ∈ mainRunLoop true cl st cfg
      ∧ ∀ item k v, item ∈ vsg → singleKV item = some (k, v) →
          Ev.dryEnsure g k "Created" ∈ mainRunLoop true cl st cfg := by
  intro cfg
  induction cfg with
  | nil => intro st g vsg h; simp at h
  | cons hd tl ih =>
    intro st g vsg hmem
    obtain ⟨n, vs⟩ := hd
    simp only [mainRunLoop]
    rcases List.mem_cons.mp hmem with heq | hmem2
    · have h1 : g = n := congrArg Prod.fst heq
      have h2 : vsg = vs := congrArg Prod.snd heq
      subst h1; subst h2
      refine ⟨List.mem_append_left _ (processContext_dry_processing_mem cl st g vsg), ?_⟩
      intro item k v hm hkv
      exact List.mem_append_left _
        (processContext_dry_dryEnsure_mem cl st g vsg item k v hm hkv)
    · have hr := ih (processContext true cl st n vs).1 g vsg hmem2
      exact ⟨List.mem_append_right _ hr.1,
        fun item k v hm hkv => List.mem_append_right _ (hr.2 item k v hm hkv)⟩

theorem runMain_dry_ok (tokStr : String) (raw : Option Yaml) (orgId : String)
    (listing : Option (List (String × String))) (cl : Client)
    (cfg : List (String × List Yaml))
    (hload : loadConfig raw = Except.ok cfg) (hne : cfg.isEmpty = false)
    (htok : tokStr ≠ "") (horg : orgId ≠ "") :
    runMain (some tokStr) raw true orgId listing cl =
      ⟨false, mainRunLoop true cl (cfg.map (fun p => (p.1, "dry-run-id-" ++ p.1))) cfg⟩ := by
  simp [runMain, hload, hne, htok, horg]

/-! ## Claim C6 -/

/-- Claim C6: in dry-run mode no state-mutating remote call (context
creation or variable upsert) is ever issued, while the decision log still
enumerates every group of the desired state and every (valid) variable of
every group. -/
theorem dry_run_no_mutation (tokStr : String) (raw : Option Yaml) (orgId : String)
    (listing : Option (List (String × String))) (cl : Client)
    (cfg : List (String × List Yaml))
    (hload : loadConfig raw = Except.ok cfg) (hne : cfg.isEmpty = false)
    (htok : tokStr ≠ "") (horg : orgId ≠ "") :
    (∀ e ∈ (runMain (some tokStr) raw true orgId listing cl).events,
        isMutatingCall e = false)
    ∧ (∀ g vsg, (g, vsg) ∈ cfg →
        Ev.processingCtx g ∈ (runMain (some tokStr) raw true orgId listing cl).events
        ∧ ∀ item k v, item ∈ vsg → singleKV item = some (k, v) →
            Ev.dryEnsure g k "Created" ∈
              (runMain (some tokStr) raw true orgId listing cl).events) := by
  rw [runMain_dry_ok tokStr raw orgId listing cl cfg hload hne htok horg]
  exact ⟨fun e he => mainRunLoop_dry_no_mut cl cfg _ e he,
    fun g vsg hmem => mainRunLoop_dry_enum cl cfg _ g vsg hmem⟩

/-- Witness for C6: a concrete dry run issues no mutating call and its log
enumerates the single group and its single variable. -/
theorem dry_run_no_mutation_witness :
    (∀ e ∈ (runMain (some "tok1") (some cfgOne) true "org9" none okClient).events,
        isMutatingCall e = false)
    ∧ Ev.processingCtx "grp" ∈
        (runMain (some "tok1") (some cfgOne) true "org9" none okClient).events
    ∧ Ev.dryEnsure "grp" "A" "Created" ∈
        (runMain (some "tok1") (some cfgOne) true "org9" none okClient).events := by
  have h := dry_run_no_mutation "tok1" (some cfgOne) "org9" none okClient
    [("grp", [.map [("A", .str "x")]])] rfl rfl (by decide) (by decide)
  have h2 := h.2 "grp" [.map [("A", .str "x")]] (by simp)
  exact ⟨h.1, h2.1, h2.2 (.map [("A", .str "x")]) "A" (.str "x") (by simp) rfl⟩

/-! ## Claim C8 -/

theorem processVar_dry_indep (cl1 cl2 : Client) (ctxName cid : String)
    (ex : List String) (item : Yaml) :
    processVar true cl1 ctxName cid ex item = processVar true cl2 ctxName cid ex item := by
  cases hkv : singleKV item <;> simp [processVar, hkv]

theorem processVars_dry_indep (cl1 cl2 : Client) (ctxName cid : String)
    (ex : List String) :
    ∀ vs, processVars true cl1 ctxName cid ex vs = processVars true cl2 ctxName cid ex vs := by
  intro vs
  induction vs with
  | nil => rfl
  | cons hd tl ih =>
    simp only [processVars, ih, processVar_dry_indep cl1 cl2 ctxName cid ex hd]

theorem processContext_dry_indep (cl1 cl2 : Client) (st : List (String × String))
    (n : String) (vs : List Yaml) :
    processContext true cl1 st n vs = processContext true cl2 st n vs := by
  cases htg : truthyGet st n <;>
    simp [processContext, htg, processVarsPart, processVars_dry_indep cl1 cl2 n _ []]

theorem mainRunLoop_dry_indep (cl1 cl2 : Client) :
    ∀ (cfg : List (String × List Yaml)) (st : List (String × String)),
      mainRunLoop true cl1 st cfg = mainRunLoop true cl2 st cfg := by
  intro cfg
  induction cfg with
  | nil => intro st; rfl
  | cons hd tl ih =>
    intro st
    obtain ⟨n, vs⟩ := hd
    simp only [mainRunLoop, processContext_dry_indep cl1 cl2 st n vs, ih]

/-- Claim C8: in dry-run mode every variable is reported under the fixed
label `Created` — the label never depends on true remote variable
existence, and indeed the whole dry-run outcome is independent of the
remote listing and of every client operation result. -/
theorem dry_run_fixed_label (apiToken : Option String) (raw : Option Yaml) (orgId : String)
    (l1 l2 : Option (List (String × String))) (cl1 cl2 : Client) :
    (∀ g k a, Ev.dryEnsure g k a ∈ (runMain apiToken raw true orgId l1 cl1).events →
        a = "Created")
    ∧ runMain apiToken raw true orgId l1 cl1 = runMain apiToken raw true orgId l2 cl2 := by
  constructor
  · intro g k a he
    cases apiToken with
    | none => simp [runMain] at he
    | some tok =>
      by_cases htok : (tok == "") = true
      · simp [runMain, htok] at he
      · cases hld : loadConfig raw with
        | error e => simp [runMain, htok, hld] at he
        | ok cfg =>
          by_cases hne : cfg.isEmpty = true
          · simp [runMain, htok, hld, hne] at he
          · by_cases horg : (orgId == "") = true
            · simp [runMain, htok, hld, hne, horg] at he
            · rw [runMain_dry_ok tok raw orgId l1 cl1 cfg hld
                (by simpa using hne) (by simpa using htok) (by simpa using horg)] at he
              exact mainRunLoop_dry_action cl1 cfg _ g k a he
  · cases apiToken with
    | none => rfl
    | some tok =>
      by_cases htok : (tok == "") = true
      · simp [runMain, htok]
      · cases hld : loadConfig raw with
        | error e => simp [runMain, htok, hld]
        | ok cfg =>
          by_cases hne : cfg.isEmpty = true
          · simp [runMain, htok, hld, hne]
          · by_cases horg : (orgId == "") = true
            · simp [runMain, htok, hld, hne, horg]
            · rw [runMain_dry_ok tok raw orgId l1 cl1 cfg hld
                  (by simpa using hne) (by simpa using htok) (by simpa using horg),
                runMain_dry_ok tok raw orgId l2 cl2 cfg hld
                  (by simpa using hne) (by simpa using htok) (by simpa using horg),
                mainRunLoop_dry_indep cl1 cl2 cfg]

/-- Witness for C8: a concrete dry run — the label attached to the lone
variable is `Created`, and two runs differing in the remote listing and in
every client result produce identical outcomes. -/
theorem dry_run_fixed_label_witness :
    ("Created" : String) = "Created"
    ∧ runMain (some "tok2") (some cfgOne) true "orgZ" none okClient =
        runMain (some "tok2") (some cfgOne) true "orgZ" (some [("g", "i")]) clientA := by
  have h := dry_run_fixed_label (some "tok2") (some cfgOne) "orgZ" none
    (some [("g", "i")]) okClient clientA
  exact ⟨h.1 "grp" "A" "Created" (by decide), h.2⟩

/-! ## Helper lemmas for the second-run scenario -/

theorem processVars_no_create (cl : Client) (ctxName cid : String) (ex : List String) :
    ∀ (vs : List Yaml) (g : String),
      Ev.createCtxCall g ∉ processVars false cl ctxName cid ex vs := by
  intro vs
  induction vs with
  | nil => intro g h; simp [processVars] at h
  | cons hd tl ih =>
    intro g h
    simp only [processVars] at h
    rcases List.mem_append.mp h with h1 | h2
    · cases hkv : singleKV hd with
      | none => simp [processVar, hkv] at h1
      | some kv =>
        obtain ⟨k0, v0⟩ := kv
        cases hcl : cl.upsert cid k0 (pyStr v0) <;> simp [processVar, hkv, hcl] at h1
    · exact ih g h2

theorem processVars_varOk_action (cl : Client) (ctxName cid : String) (ex : List String) :
    ∀ (vs : List Yaml),
      (∀ item k v, item ∈ vs → singleKV item = some (k, v) → ex.contains k = true) →
      ∀ a k g, Ev.varOk a k g ∈ processVars false cl ctxName cid ex vs → a = "Updated" := by
  intro vs
  induction vs with
  | nil => intro _ a k g h; simp [processVars] at h
  | cons hd tl ih =>
    intro hall a k g h
    simp only [processVars] at h
    rcases List.mem_append.mp h with h1 | h2
    · cases hkv : singleKV hd with
      | none => simp [processVar, hkv] at h1
      | some kv =>
        obtain ⟨k0, v0⟩ := kv
        have hc := hall hd k0 v0 (by simp) hkv
        have hc2 : k0 ∈ ex := by simpa using hc
        cases hcl : cl.upsert cid k0 (pyStr v0) <;>
          simp [processVar, hkv, hcl, hc2] at h1
        exact h1.1
    · exact ih (fun item k v hm hkv => hall item k v (by simp [hm]) hkv) a k g h2

theorem mainRunLoop_second_run (cl : Client) (st0 : List (String × String)) :
    ∀ (cfg : List (String × List Yaml)),
      (∀ g vsg, (g, vsg) ∈ cfg → ∃ cid, truthyGet st0 g = some cid ∧
        (∀ item ∈ vsg, (singleKV item).isSome) ∧
        (∀ item k v, item ∈ vsg → singleKV item = some (k, v) →
          (cl.listEnvVars cid).contains k = true)) →
      (∀ g, Ev.createCtxCall g ∉ mainRunLoop false cl st0 cfg)
      ∧ countUpserts (mainRunLoop false cl st0 cfg) = totalVarCount cfg
      ∧ (∀ a k g, Ev.varOk a k g ∈ mainRunLoop false cl st0 cfg → a = "Updated") := by
  intro cfg
  induction cfg with
  | nil =>
    intro _
    exact ⟨fun g h => by simp [mainRunLoop] at h,
      by simp [mainRunLoop, countUpserts, totalVarCount],
      fun a k g h => by simp [mainRunLoop] at h⟩
  | cons hd tl ih =>
    intro hall
    obtain ⟨n, vs⟩ := hd
    obtain ⟨cid, hcid, hvalid, hcontains⟩ := hall n vs (by simp)
    have htl := ih (fun g vsg h => hall g vsg (List.mem_cons_of_mem _ h))
    have hev : mainRunLoop false cl st0 ((n, vs) :: tl) =
        ([Ev.processingCtx n, Ev.ctxExists n cid, Ev.processingVars n cid,
          Ev.listVarsCall cid] ++ processVars false cl n cid (cl.listEnvVars cid) vs)
        ++ mainRunLoop false cl st0 tl := by
      simp [mainRunLoop, processContext, hcid, processVarsPart]
    refine ⟨?_, ?_, ?_⟩
    · intro g hgm
      rw [hev] at hgm
      rcases List.mem_append.mp hgm with h1 | h2
      · rcases List.mem_append.mp h1 with h0 | h0
        · simp at h0
        · exact processVars_no_create cl n cid _ vs g h0
      · exact htl.1 g h2
    · rw [hev, countUpserts_append, countUpserts_append,
        countUpserts_processVars vs hvalid, htl.2.1]
      have h4 : countUpserts [Ev.processingCtx n, Ev.ctxExists n cid,
          Ev.processingVars n cid, Ev.listVarsCall cid] = 0 := by
        simp [countUpserts, isUpsertCall]
      rw [h4]
      simp [totalVarCount]
    · intro a k g hgm
      rw [hev] at hgm
      rcases List.mem_append.mp hgm with h1 | h2
      · rcases List.mem_append.mp h1 with h0 | h0
        · simp at h0
        · exact processVars_varOk_action cl n cid _ vs hcontains a k g h0
      · exact htl.2.2 a k g h2

/-! ## Claim C9 -/

/-- Claim C9: re-running the reconciler when every desired group is
already present in the fetched snapshot and every desired variable name is
already among the existing names of its group (the remote state a prior
fully successful run produces) performs zero context-creation calls,
issues exactly one upsert per desired variable, classifies every reported
variable as `Updated`, and exits zero. -/
theorem rerun_idempotent (tokStr : String) (raw : Option Yaml) (orgId : String)
    (st0 : List (String × String)) (cl : Client) (cfg : List (String × List Yaml))
    (hload : loadConfig raw = Except.ok cfg) (hne : cfg.isEmpty = false)
    (htok : tokStr ≠ "") (horg : orgId ≠ "")
    (hall : ∀ g vsg, (g, vsg) ∈ cfg → ∃ cid, truthyGet st0 g = some cid ∧
        (∀ item ∈ vsg, (singleKV item).isSome) ∧
        (∀ item k v, item ∈ vsg → singleKV item = some (k, v) →
          (cl.listEnvVars cid).contains k = true)) :
    (∀ g, Ev.createCtxCall g ∉
        (runMain (some tokStr) raw false orgId (some st0) cl).events)
    ∧ countUpserts ((runMain (some tokStr) raw false orgId (some st0) cl).events) =
        totalVarCount cfg
    ∧ (∀ a k g, Ev.varOk a k g ∈
        (runMain (some tokStr) raw false orgId (some st0) cl).events → a = "Updated")
    ∧ (runMain (some tokStr) raw false orgId (some st0) cl).exit1 = false := by
  rw [runMain_real_ok tokStr raw orgId st0 cl cfg hload hne htok horg]
  have h := mainRunLoop_second_run cl st0 cfg hall
  refine ⟨?_, ?_, ?_, rfl⟩
  · intro g hgm
    rcases List.mem_cons.mp hgm with h0 | h0
    · exact Ev.noConfusion h0
    · exact h.1 g h0
  · have hc : countUpserts (Ev.listCtxsCall :: mainRunLoop false cl st0 cfg) =
        countUpserts (mainRunLoop false cl st0 cfg) := by
      simp [countUpserts, List.filter_cons, isUpsertCall]
    rw [show (MainOut.mk false (Ev.listCtxsCall :: mainRunLoop false cl st0 cfg)).events =
        Ev.listCtxsCall :: mainRunLoop false cl st0 cfg from rfl, hc]
    exact h.2.1
  · intro a k g hgm
    rcases List.mem_cons.mp hgm with h0 | h0
    · exact Ev.noConfusion h0
    · exact h.2.2 a k g h0

/-- Witness for C9: re-running against a snapshot already containing the
lone group and a remote variable set already containing `A` issues no
creation call, exactly one upsert, and exits zero. -/
theorem rerun_idempotent_witness :
    Ev.createCtxCall "grp" ∉
      (runMain (some "tok3") (some cfgOne) false "orgR" (some [("grp", "id0")]) clientA).events
    ∧ countUpserts ((runMain (some "tok3") (some cfgOne) false "orgR"
        (some [("grp", "id0")]) clientA).events) = 1
    ∧ (runMain (some "tok3") (some cfgOne) false "orgR"
        (some [("grp", "id0")]) clientA).exit1 = false := by
  have hall : ∀ g vsg, (g, vsg) ∈ [("grp", [Yaml.map [("A", Yaml.str "x")]])] →
      ∃ cid, truthyGet [("grp", "id0")] g = some cid ∧
        (∀ item ∈ vsg, (singleKV item).isSome) ∧
        (∀ item k v, item ∈ vsg → singleKV item = some (k, v) →
          (clientA.listEnvVars cid).contains k = true) := by
    intro g vsg hm
    simp at hm
    obtain ⟨rfl, rfl⟩ := hm
    refine ⟨"id0", rfl, by decide, ?_⟩
    intro item k v him hkv
    simp at him
    subst him
    simp [singleKV] at hkv
    obtain ⟨rfl, rfl⟩ := hkv
    rfl
  have h := rerun_idempotent "tok3" (some cfgOne) "orgR" [("grp", "id0")] clientA
    [("grp", [Yaml.map [("A", Yaml.str "x")]])] rfl rfl (by decide) (by decide) hall
  exact ⟨h.1 "grp", h.2.1, h.2.2.2⟩

/-! ## Helper lemmas about the validation -/

theorem checkItems_ok_eq (n : String) :
    ∀ items : List Yaml, exceptOk (checkItems n items) = items.all isSingleKVMap := by
  intro items
  induction items with
  | nil => rfl
  | cons hd tl ih =>
    cases h : isSingleKVMap hd with
    | true => simpa [checkItems, h] using ih
    | false => simp [checkItems, h, exceptOk]

theorem checkItems_all_ok (n : String) :
    ∀ items : List Yaml, items.all isSingleKVMap = true → checkItems n items = .ok () := by
  intro items
  induction items with
  | nil => intro _; rfl
  | cons hd tl ih =>
    intro hall
    simp only [List.all_cons, Bool.and_eq_true] at hall
    simp [checkItems, hall.1, ih hall.2]

theorem validateGroups_ok_eq :
    ∀ kvs : List (String × Yaml),
      exceptOk (validateGroups kvs) = kvs.all (fun p => groupShapeOK p.2) := by
  intro kvs
  induction kvs with
  | nil => rfl
  | cons hd tl ih =>
    obtain ⟨n, v⟩ := hd
    cases v with
    | list items =>
      have hgs : groupShapeOK (Yaml.list items) = items.all isSingleKVMap := rfl
      cases hc : checkItems n items with
      | error e =>
        have hfalse : items.all isSingleKVMap = false := by
          have h0 := checkItems_ok_eq n items
          rw [hc] at h0
          exact h0.symm
        have hv : validateGroups ((n, Yaml.list items) :: tl) = Except.error e := by
          simp [validateGroups, hc]
        rw [hv, List.all_cons]
        show false = (groupShapeOK (Yaml.list items) && tl.all fun p => groupShapeOK p.2)
        rw [hgs, hfalse, Bool.false_and]
      | ok u =>
        have hall : items.all isSingleKVMap = true := by
          have h0 := checkItems_ok_eq n items
          rw [hc] at h0
          exact h0.symm
        cases hr : validateGroups tl with
        | error e =>
          have htl : tl.all (fun p => groupShapeOK p.2) = false := by
            rw [← ih, hr]; rfl
          have hv : validateGroups ((n, Yaml.list items) :: tl) = Except.error e := by
            simp [validateGroups, hc, hr]
          rw [hv, List.all_cons]
          show false = (groupShapeOK (Yaml.list items) && tl.all fun p => groupShapeOK p.2)
          rw [htl, Bool.and_false]
        | ok tl2 =>
          have htl : tl.all (fun p => groupShapeOK p.2) = true := by
            rw [← ih, hr]; rfl
          have hv : validateGroups ((n, Yaml.list items) :: tl) =
              Except.ok ((n, items) :: tl2) := by
            simp [validateGroups, hc, hr]
          rw [hv, List.all_cons]
          show true = (groupShapeOK (Yaml.list items) && tl.all fun p => groupShapeOK p.2)
          rw [htl, Bool.and_true, hgs, hall]
    | str s => simp [validateGroups, exceptOk, groupShapeOK]
    | int m => simp [validateGroups, exceptOk, groupShapeOK]
    | bool b => simp [validateGroups, exceptOk, groupShapeOK]
    | null => simp [validateGroups, exceptOk, groupShapeOK]
    | map kvs2 => simp [validateGroups, exceptOk, groupShapeOK]

theorem validateGroups_named_error :
    ∀ (pre : List (String × Yaml)) (n : String) (v : Yaml) (rest : List (String × Yaml)),
      (∀ p ∈ pre, groupShapeOK p.2 = true) → (∀ items, v ≠ Yaml.list items) →
      validateGroups (pre ++ (n, v) :: rest) =
        .error ("Invalid format for context " ++ n ++ ". Value should be a list.") := by
  intro pre
  induction pre with
  | nil =>
    intro n v rest _ hv
    cases v with
    | list items => exact absurd rfl (hv items)
    | str s => simp [validateGroups]
    | int m => simp [validateGroups]
    | bool b => simp [validateGroups]
    | null => simp [validateGroups]
    | map kvs2 => simp [validateGroups]
  | cons hd pre2 ih =>
    intro n v rest hpre hv
    obtain ⟨m, w⟩ := hd
    have hw : groupShapeOK w = true := hpre (m, w) (by simp)
    cases w with
    | list witems =>
      have hall : witems.all isSingleKVMap = true := by simpa [groupShapeOK] using hw
      have hck := checkItems_all_ok m witems hall
      have hrec := ih n v rest (fun p hp => hpre p (by simp [hp])) hv
      simp [validateGroups, hck, hrec]
    | str s => simp [groupShapeOK] at hw
    | int mm => simp [groupShapeOK] at hw
    | bool b => simp [groupShapeOK] at hw
    | null => simp [groupShapeOK] at hw
    | map kvs2 => simp [groupShapeOK] at hw

/-! ## Claim C7 -/

/-- Claim C7: the validation accepts a document exactly when its root is a
mapping whose every group value is a list of single-entry mappings; a
sequence root is rejected, a group whose value is not a list is rejected
with an error naming the group, and any rejected document makes `main`
exit non-zero with no event at all — in particular before any network
call. -/
theorem config_validation :
    (∀ y : Yaml, exceptOk (validateConfig y) = shapeOK y)
    ∧ (∀ xs : List Yaml, validateConfig (.list xs) =
        .error "Invalid YAML format. Root should be a dictionary (mapping).")
    ∧ (∀ (pre : List (String × Yaml)) (n : String) (v : Yaml) (rest : List (String × Yaml)),
        (∀ p ∈ pre, groupShapeOK p.2 = true) → (∀ items, v ≠ Yaml.list items) →
        validateConfig (.map (pre ++ (n, v) :: rest)) =
          .error ("Invalid format for context " ++ n ++ ". Value should be a list."))
    ∧ (∀ (apiToken : Option String) (raw : Option Yaml) (dry : Bool) (orgId : String)
        (listing : Option (List (String × String))) (cl : Client),
        exceptOk (loadConfig raw) = false →
        runMain apiToken raw dry orgId listing cl = ⟨true, []⟩) := by
  refine ⟨?_, fun xs => rfl, fun pre n v rest hpre hv => ?_, ?_⟩
  · intro y
    cases y with
    | map kvs => exact validateGroups_ok_eq kvs
    | str s => rfl
    | int n => rfl
    | bool b => rfl
    | null => rfl
    | list xs => rfl
  · exact validateGroups_named_error pre n v rest hpre hv
  · intro apiToken raw dry orgId listing cl hbad
    cases apiToken with
    | none => rfl
    | some tok =>
      by_cases htok : (tok == "") = true
      · simp [runMain, htok]
      · cases hld : loadConfig raw with
        | error e => simp [runMain, htok, hld]
        | ok cfg =>
          rw [hld] at hbad
          simp [exceptOk] at hbad

/-- Witness for C7: a sequence root is rejected, a group whose value is a
mapping is rejected with the error naming the group, and main on a
rejected document exits non-zero with no events. -/
theorem config_validation_witness :
    exceptOk (validateConfig cfgOne) = shapeOK cfgOne
    ∧ validateConfig (.list [.str "a"]) =
        .error "Invalid YAML format. Root should be a dictionary (mapping)."
    ∧ validateConfig (.map [("grp", .map [("A", .str "x")])]) =
        .error ("Invalid format for context " ++ "grp" ++ ". Value should be a list.")
    ∧ runMain (some "t7") (some (.list [])) false "o7" none okClient = ⟨true, []⟩ := by
  have h := config_validation
  refine ⟨h.1 cfgOne, h.2.1 [.str "a"], ?_,
    h.2.2.2 (some "t7") (some (.list [])) false "o7" none okClient rfl⟩
  exact h.2.2.1 [] "grp" (.map [("A", .str "x")]) [] (by simp) (fun items => by simp)

end ContextSync
